import Mathlib

/-!
Verification of the jellyfin-subfix matching & naming engine (src/main.rs)
via a shallow embedding of its pure logic: filename pattern extraction,
language resolution, media consistency validation, subtitle deduplication,
and symlink-name derivation.
-/

set_option maxRecDepth 4000

namespace Subfix

/-! ## Character and path helpers -/

/-- ASCII digit test, the semantics of a digit character for the regexes. -/
def isDig (c : Char) : Bool := 48 ≤ c.toNat && c.toNat ≤ 57

/-- ASCII lowercasing, the semantics of the case-insensitive regex flags
and of `eq_ignore_ascii_case`. -/
def lowerChar (c : Char) : Char :=
  if 65 ≤ c.toNat && c.toNat ≤ 90 then Char.ofNat (c.toNat + 32) else c

/-- Split a file name at its last dot: returns `(before, after)` for the
last `.` in the list, `none` when there is no dot. -/
def splitLastDot : List Char → Option (List Char × List Char)
  | [] => none
  | c :: rest =>
    match splitLastDot rest with
    | some (before, after) => some (c :: before, after)
    | none => if c = '.' then some ([], rest) else none

/-- Split a character list on `/` into path components. -/
def splitOnSlash : List Char → List (List Char)
  | [] => [[]]
  | c :: rest =>
    if c = '/' then [] :: splitOnSlash rest
    else
      match splitOnSlash rest with
      | comp :: comps => (c :: comp) :: comps
      | [] => [[c]]

/-- `Utf8Path::file_name`: the final normal path component, `none` for an
empty path or one ending in `..`. -/
def fileNameOf (p : String) : Option String :=
  let comps := (splitOnSlash p.data).filter fun c => !c.isEmpty && c ≠ ['.']
  match comps.getLast? with
  | none => none
  | some c => if c = ['.', '.'] then none else some (String.mk c)

/-- Stem and extension of a bare file name, with Rust's rule that a
leading dot with no later dot yields no extension. -/
def stemExtOf (name : String) : String × Option String :=
  match splitLastDot name.data with
  | none => (name, none)
  | some (before, after) =>
    if before.isEmpty then (name, none)
    else (String.mk before, some (String.mk after))

/-- `Utf8Path::file_stem`. -/
def fileStem (p : String) : Option String :=
  (fileNameOf p).map fun n => (stemExtOf n).1

/-- `Utf8Path::extension`. -/
def extension (p : String) : Option String :=
  (fileNameOf p).bind fun n => (stemExtOf n).2

/-! ## SERIES_INFO_REGEX : `S\d{2}E\d{2}`, case-insensitive -/

/-- Does the pattern `S\d{2}E\d{2}` (case-insensitive) match at the head
of the character list? -/
def seriesAt : List Char → Bool
  | s :: d1 :: d2 :: e :: d3 :: d4 :: _ =>
    (s = 'S' || s = 's') && isDig d1 && isDig d2 &&
      (e = 'E' || e = 'e') && isDig d3 && isDig d4
  | _ => false

/-- `SERIES_INFO_REGEX.find`: leftmost match of `S\d{2}E\d{2}`, returned
as the matched six characters. -/
def findSeriesInfoMatch : List Char → Option (List Char)
  | [] => none
  | c :: rest =>
    if seriesAt (c :: rest) then some ((c :: rest).take 6)
    else findSeriesInfoMatch rest

/-- Numeric value of a digit string (digits are guaranteed by callers). -/
def digitsVal (cs : List Char) : Nat :=
  cs.foldl (fun a c => a * 10 + (c.toNat - 48)) 0

/-- `str::parse::<u8>` on the digit substrings the program feeds it:
succeeds on a nonempty all-digit string whose value fits in a `u8`. -/
def parseU8 (cs : List Char) : Option Nat :=
  if cs.isEmpty then none
  else if !cs.all isDig then none
  else if digitsVal cs ≤ 255 then some (digitsVal cs) else none

/-- `str::parse::<NonZeroU8>`: like `parseU8` but zero is rejected. -/
def parseNonZeroU8 (cs : List Char) : Option Nat :=
  match parseU8 cs with
  | some (n + 1) => some (n + 1)
  | _ => none

/-! ## SeriesInfo -/

/-- `SeriesInfo { season, episode }` (both `NonZeroU8` in the source; the
parser only ever produces values in 1..=99). -/
structure SeriesInfo where
  season : Nat
  episode : Nat
deriving DecidableEq, Repr

/-- `SeriesInfo::from_str`: requires a 6-character string matched by
`SERIES_INFO_REGEX`, then parses `s[1..3]` and `s[4..6]` as `NonZeroU8`.
The source tests the negated condition and bails; stated positively here. -/
def SeriesInfo.fromStr (s : String) : Except String SeriesInfo :=
  if s.length = 6 ∧ (findSeriesInfoMatch s.data).isSome = true then
    match parseNonZeroU8 ((s.data.drop 1).take 2) with
    | none => .error "couldn't parse season"
    | some season =>
      match parseNonZeroU8 ((s.data.drop 4).take 2) with
      | none => .error "couldn't parse episode"
      | some episode => .ok { season, episode }
  else .error "doesn't match pattern S01E01"

/-! ## Video -/

/-- `Video { path, series_info }`. -/
structure Video where
  path : String
  series_info : Option SeriesInfo
deriving DecidableEq, Repr

/-- `Video::from_path`: search the whole path string for series info; a
found-but-unparsable match propagates the error (the `?` in the source). -/
def Video.fromPath (path : String) : Except String Video :=
  match findSeriesInfoMatch path.data with
  | some m =>
    match SeriesInfo.fromStr (String.mk m) with
    | .ok si => .ok { path, series_info := some si }
    | .error e => .error e
  | none => .ok { path, series_info := none }

/-- `Video::part_of_series`. -/
def Video.partOfSeries (v : Video) : Bool := v.series_info.isSome

example : Video.fromPath "Show S01E02.mkv" =
    .ok { path := "Show S01E02.mkv", series_info := some ⟨1, 2⟩ } := rfl

example : Video.fromPath "S00E01.mkv" = .error "couldn't parse season" := rfl

example : Video.fromPath "S01E00.mkv" = .error "couldn't parse episode" := rfl

/-! ## Language resolver -/

/-- Modelled from the spec: the language identities exposed by the
external language table (the `isolang` crate, which is not part of this
repository). A representative finite universe suffices for the engine:
each language has an ISO 639-3 code, an optional 639-1 code and an
English display name. `fil` (Filipino) has no 2-letter code. -/
inductive Language
  | eng
  | fra
  | deu
  | spa
  | fil
deriving DecidableEq, Repr

/-- The 3-letter ISO 639-3 code (`Language::to_639_3`). -/
def Language.to_639_3 : Language → String
  | .eng => "eng"
  | .fra => "fra"
  | .deu => "deu"
  | .spa => "spa"
  | .fil => "fil"

/-- The 2-letter ISO 639-1 code when one exists (`Language::to_639_1`). -/
def Language.to_639_1 : Language → Option String
  | .eng => some "en"
  | .fra => some "fr"
  | .deu => some "de"
  | .spa => some "es"
  | .fil => none

/-- The canonical display name (`Language::to_name`). -/
def Language.to_name : Language → String
  | .eng => "English"
  | .fra => "French"
  | .deu => "German"
  | .spa => "Spanish"
  | .fil => "Filipino"

/-- Modelled from the spec: the standard language-name/code lookup table
behind `Language::from_name` (external `isolang` crate, not in this
repository) — "a language name or standard code (e.g. English, eng)",
resolved by exact lookup. -/
def languageTable : List (String × Language) :=
  [("English", .eng), ("eng", .eng), ("en", .eng),
   ("French", .fra), ("fra", .fra), ("fr", .fra),
   ("German", .deu), ("deu", .deu), ("de", .deu),
   ("Spanish", .spa), ("spa", .spa), ("es", .spa),
   ("Filipino", .fil), ("fil", .fil)]

/-- Modelled from the spec: `Language::from_name` — exact lookup in the
table, `none` when no entry matches. -/
def Language.fromName (token : String) : Option Language :=
  (languageTable.find? fun p => p.1 == token).map Prod.snd

/-! ## NUMBER_PREFIX_REGEX : `^\d+_` -/

/-- `NUMBER_PREFIX_REGEX.splitn(s, 2).last()`: strips a leading run of
digits followed by `_`, returns the input unchanged when the anchored
pattern does not match. -/
def stripNumericPrefix (s : String) : String :=
  let ds := s.data.takeWhile isDig
  if ds.isEmpty then s
  else
    match s.data.drop ds.length with
    | '_' :: tail => String.mk tail
    | _ => s

example : stripNumericPrefix "2_English" = "English" := rfl
example : stripNumericPrefix "English" = "English" := rfl
example : stripNumericPrefix "12a_x" = "12a_x" := rfl

/-! ## Subtitle -/

/-- `Subtitle { path, lang, series_info }`. -/
structure Subtitle where
  path : String
  lang : Language
  series_info : Option SeriesInfo
deriving DecidableEq, Repr

/-- `Subtitle::new`: resolve the language from the numeric-prefix-stripped
file stem, then search the whole path for series info. The source panics
via `.expect` when the path has no file stem; modelled as an error, a
state the discovery pipeline never feeds it. -/
def Subtitle.new (path : String) : Except String Subtitle :=
  match fileStem path with
  | none => .error "subtitle should have file name"
  | some file_name =>
    let language := stripNumericPrefix file_name
    match Language.fromName language with
    | none => .error ("couldn't find language " ++ language)
    | some lang =>
      match findSeriesInfoMatch path.data with
      | some m =>
        match SeriesInfo.fromStr (String.mk m) with
        | .ok si => .ok { path, lang, series_info := some si }
        | .error e => .error e
      | none => .ok { path, lang, series_info := none }

example : Subtitle.new "English.srt" =
    .ok { path := "English.srt", lang := .eng, series_info := none } := rfl
example : Subtitle.new "1_English.srt" =
    .ok { path := "1_English.srt", lang := .eng, series_info := none } := rfl
example : Subtitle.new "Subtitles.srt" =
    .error "couldn't find language Subtitles" := rfl

/-! ## Extension filters -/

def VIDEO_EXTENSIONS : List String := ["mp4", "mkv", "avi"]

def SUBTITLE_EXTENSIONS : List String := ["srt", "vtt", "idx", "ass", "dts"]

/-- `predicates::ext_in` (`eq_ignore_ascii_case` against each entry). -/
def extIn (ext : String) (group : List String) : Bool :=
  group.any fun acceptable => ext.data.map lowerChar == acceptable.data.map lowerChar

/-- `predicates::is_video` on the path component (the `is_file` check is
filesystem state, outside the embedding). -/
def isVideoPath (p : String) : Bool :=
  match extension p with
  | some ext => extIn ext VIDEO_EXTENSIONS
  | none => false

/-- `predicates::is_subtitle` on the path component. -/
def isSubtitlePath (p : String) : Bool :=
  match extension p with
  | some ext => extIn ext SUBTITLE_EXTENSIONS
  | none => false

/-- `discover_videos` on the already-listed directory entries: keep video
paths, build `Video`s, skip (with a warning) any path whose construction
fails. -/
def discoverVideos (paths : List String) : List Video :=
  (paths.filter isVideoPath).filterMap fun p => (Video.fromPath p).toOption

/-- `discover_subtitles` on the already-walked (sorted) entries: keep
subtitle paths, build `Subtitle`s, skip (with a warning) any path whose
construction fails. -/
def discoverSubtitles (paths : List String) : List Subtitle :=
  (paths.filter isSubtitlePath).filterMap fun p => (Subtitle.new p).toOption

/-! ## Subtitle deduplication -/

/-- The `(language, series_info)` key pushed onto `seen` in
`remove_duplicate_languages`. -/
def subKey (s : Subtitle) : Language × Option SeriesInfo := (s.lang, s.series_info)

/-- The `Vec::retain` loop of `remove_duplicate_languages`, with the
`seen` vector made explicit (the source appends to `seen`; only
membership matters, so the new key is consed at the front). -/
def removeDupAux (seen : List (Language × Option SeriesInfo)) :
    List Subtitle → List Subtitle
  | [] => []
  | sub :: rest =>
    if seen.contains (sub.lang, sub.series_info) then removeDupAux seen rest
    else sub :: removeDupAux ((sub.lang, sub.series_info) :: seen) rest

/-- `remove_duplicate_languages` (the source mutates the vector in place;
modelled as returning the retained list). -/
def removeDuplicateLanguages (subs : List Subtitle) : List Subtitle :=
  removeDupAux [] subs

/-- Written from the spec's words, for comparison with
`removeDuplicateLanguages`: an entry is kept iff no *earlier entry of the
input sequence* (kept or discarded) carries the same
`(language, episode_identifier)` key; the accumulator records the keys of
all earlier entries. -/
def dedupFirstSeenAux (earlier : List (Language × Option SeriesInfo)) :
    List Subtitle → List Subtitle
  | [] => []
  | sub :: rest =>
    if earlier.contains (subKey sub) then dedupFirstSeenAux (subKey sub :: earlier) rest
    else sub :: dedupFirstSeenAux (subKey sub :: earlier) rest

/-- Written from the spec's words: first-seen-wins deduplication. -/
def dedupFirstSeen (subs : List Subtitle) : List Subtitle :=
  dedupFirstSeenAux [] subs

/-! ## SEASON_AND_QUALITY_SUFFIX_REGEX :
`( S\\d{2}E\\d{2})? - ((720p)|(1080p)|(4K( HDR)?))$`, case-insensitive -/

/-- One of the literal quality tokens, compared ASCII-case-insensitively
(the regex alternation `(720p)|(1080p)|(4K( HDR)?)` anchored at `$`). -/
def qualityToken (cs : List Char) : Bool :=
  let l := cs.map lowerChar
  l == "720p".data || l == "1080p".data || l == "4k".data || l == "4k hdr".data

/-- ` - ` followed by a quality token, consuming the whole list. -/
def dashQuality : List Char → Bool
  | ' ' :: '-' :: ' ' :: q => qualityToken q
  | _ => false

/-- ` S\\d{2}E\\d{2}` followed by ` - quality`, consuming the whole list. -/
def seasonDashQuality : List Char → Bool
  | sp :: s :: d1 :: d2 :: e :: d3 :: d4 :: rest =>
    sp = ' ' && (s = 'S' || s = 's') && isDig d1 && isDig d2 &&
      (e = 'E' || e = 'e') && isDig d3 && isDig d4 && dashQuality rest
  | _ => false

/-- Does the suffix regex match here, consuming the rest of the stem?
Every alternative is anchored at `$`, so a match starting at a position
covers exactly the remaining characters. -/
def qualitySuffixHere (cs : List Char) : Bool :=
  seasonDashQuality cs || dashQuality cs

/-- `SEASON_AND_QUALITY_SUFFIX_REGEX.splitn(stem, 2).next()`: the prefix
before the leftmost (hence longest, since all matches end at `$`) match;
the whole stem when the regex does not match. `splitn` always yields a
first piece, so the source's `else { return false }` branch is dead. -/
def stripQualitySuffixList : List Char → List Char
  | [] => []
  | c :: rest =>
    if qualitySuffixHere (c :: rest) then []
    else c :: stripQualitySuffixList rest

/-- String form of `stripQualitySuffixList` (the spec's
`stripQualitySuffix`). -/
def stripQualitySuffix (s : String) : String :=
  String.mk (stripQualitySuffixList s.data)

example : stripQualitySuffix "Show - 720p" = "Show" := rfl
example : stripQualitySuffix "Show S01E01 - 720p" = "Show" := rfl
example : stripQualitySuffix "Show - 4K HDR" = "Show" := rfl
example : stripQualitySuffix "Show" = "Show" := rfl

/-- `predicates::different_versions_same_media`. The source `.expect`s a
first element (caller guarantees two or more files) and `.expect`s its
file stem; both panics are modelled as `false`, states the program never
reaches. -/
def differentVersionsSameMedia (files : List String) : Bool :=
  match files with
  | [] => false
  | first :: rest =>
    match fileStem first with
    | none => false
    | some first_name =>
      let name_prefix := stripQualitySuffixList first_name.data
      rest.all fun file =>
        match fileStem file with
        | some name => name_prefix.isPrefixOf name.data
        | none => false

example : differentVersionsSameMedia ["Show - 720p.mkv", "Show - 1080p.mkv"] = true := rfl
example : differentVersionsSameMedia
    ["Show S01E01 - 720p.mkv", "Other S01E01 - 720p.mkv"] = false := rfl

/-- `predicates::all_a_series`. -/
def allASeries (videos : List Video) : Bool :=
  videos.all fun vid => vid.partOfSeries

/-- `predicates::no_series`. -/
def noSeries (videos : List Video) : Bool :=
  videos.all fun vid => !vid.partOfSeries

/-! ## Symlink naming -/

/-- `jellyfin_flags::DEFAULT`. -/
def jellyfinFlagDefault : String := "default"

/-- The link file name built character-push by character-push in
`create_symlinks`: video stem, `.`, preferred language tag (639-1 when it
exists, else 639-3), `.default` when the language is English, `.`, the
subtitle's extension. The source `unwrap`s the stem and extension;
modelled with `""` defaults, states the discovery pipeline never feeds
it. -/
def linkFileName (video : Video) (subtitle : Subtitle) : String :=
  let stem := (fileStem video.path).getD ""
  let withTag := stem ++ "." ++ (subtitle.lang.to_639_1.getD subtitle.lang.to_639_3)
  let withDefault :=
    if subtitle.lang = Language.eng then withTag ++ "." ++ jellyfinFlagDefault
    else withTag
  withDefault ++ "." ++ ((extension subtitle.path).getD "")

/-- `create_symlinks`: the cartesian product of videos and subtitles,
filtered to pairs with equal `series_info`, each emitting one link
instruction; modelled as the list of `(video, subtitle, link file name)`
triples in emission order. -/
def createSymlinks (videos : List Video) (subtitles : List Subtitle) :
    List (Video × Subtitle × String) :=
  ((videos.flatMap fun video => subtitles.map fun subtitle => (video, subtitle)).filter
    fun p => p.1.series_info == p.2.series_info).map
    fun p => (p.1, p.2, linkFileName p.1 p.2)

example :
    createSymlinks [{ path := "Movie.mkv", series_info := none }]
      [{ path := "English.srt", lang := .eng, series_info := none }] =
    [({ path := "Movie.mkv", series_info := none },
      { path := "English.srt", lang := .eng, series_info := none },
      "Movie.en.default.srt")] := rfl

/-! ## process -/

/-- The per-directory error taxonomy of `process` (the three `bail!`
sites). -/
inductive ProcessError
  | noVideosFound
  | mixedSeriesAndMovies
  | inconsistentTitles
deriving DecidableEq, Repr

/-- The tail of `process` after validation: discover subtitles is done by
the caller; an empty subtitle list short-circuits with no links, else
dedup then pair. -/
def processLinks (videos : List Video) (subs : List Subtitle) :
    List (Video × Subtitle × String) :=
  if subs.isEmpty then []
  else createSymlinks videos (removeDuplicateLanguages subs)

/-- `process`, over the already-discovered video and subtitle entries
(directory walking and logging are filesystem effects outside the
embedding): bail on zero videos; with two or more, bail on mixed
series/movies, then bail when the same-media check fails; otherwise emit
the link instructions. -/
def process (videos : List Video) (subs : List Subtitle) :
    Except ProcessError (List (Video × Subtitle × String)) :=
  match videos with
  | [] => .error .noVideosFound
  | [v] => .ok (processLinks [v] subs)
  | v1 :: v2 :: rest =>
    if !(noSeries (v1 :: v2 :: rest) || allASeries (v1 :: v2 :: rest)) then
      .error .mixedSeriesAndMovies
    else if !differentVersionsSameMedia ((v1 :: v2 :: rest).map Video.path) then
      .error .inconsistentTitles
    else .ok (processLinks (v1 :: v2 :: rest) subs)

/-! ## Deduplication lemmas -/

theorem removeDupAux_congr (l : List Subtitle) :
    ∀ seen seen' : List (Language × Option SeriesInfo),
    (∀ k, seen.contains k = seen'.contains k) →
    removeDupAux seen l = removeDupAux seen' l := by
  induction l with
  | nil => intro _ _ _; rfl
  | cons sub rest ih =>
    intro seen seen' h
    simp only [removeDupAux, h (sub.lang, sub.series_info)]
    by_cases hc : seen'.contains (sub.lang, sub.series_info) = true
    · rw [if_pos hc, if_pos hc]
      exact ih seen seen' h
    · rw [if_neg hc, if_neg hc]
      refine congrArg _ (ih _ _ fun k => ?_)
      simp only [List.contains_cons, h k]

theorem removeDupAux_eq_dedupFirstSeenAux (l : List Subtitle) :
    ∀ seen, removeDupAux seen l = dedupFirstSeenAux seen l := by
  induction l with
  | nil => intro _; rfl
  | cons sub rest ih =>
    intro seen
    simp only [removeDupAux, dedupFirstSeenAux, subKey]
    by_cases hc : seen.contains (sub.lang, sub.series_info) = true
    · rw [if_pos hc, if_pos hc, ← ih]
      refine removeDupAux_congr rest _ _ fun k => ?_
      simp only [List.contains_cons]
      cases hbe : k == (sub.lang, sub.series_info) with
      | true => rw [eq_of_beq hbe, hc]; rfl
      | false => rfl
    · rw [if_neg hc, if_neg hc, ih]

theorem mem_removeDupAux_not_seen (l : List Subtitle) :
    ∀ seen t, t ∈ removeDupAux seen l → seen.contains (subKey t) = false := by
  induction l with
  | nil => intro seen t h; simp [removeDupAux] at h
  | cons sub rest ih =>
    intro seen t h
    simp only [removeDupAux] at h
    by_cases hc : seen.contains (sub.lang, sub.series_info) = true
    · rw [if_pos hc] at h
      exact ih seen t h
    · rw [if_neg hc] at h
      rcases List.mem_cons.mp h with rfl | hmem
      · simpa [subKey] using Bool.of_not_eq_true hc
      · have h2 := ih _ t hmem
        simp only [List.contains_cons, Bool.or_eq_false_iff] at h2
        exact h2.2

theorem removeDupAux_pairwise (l : List Subtitle) :
    ∀ seen, (removeDupAux seen l).Pairwise fun a b => subKey a ≠ subKey b := by
  induction l with
  | nil => intro _; simp [removeDupAux]
  | cons sub rest ih =>
    intro seen
    simp only [removeDupAux]
    by_cases hc : seen.contains (sub.lang, sub.series_info) = true
    · rw [if_pos hc]; exact ih seen
    · rw [if_neg hc]
      refine List.pairwise_cons.mpr ⟨fun b hb hkey => ?_, ih _⟩
      have h2 := mem_removeDupAux_not_seen rest _ b hb
      simp only [List.contains_cons, Bool.or_eq_false_iff, beq_eq_false_iff_ne,
        ne_eq] at h2
      exact h2.1 (by rw [← hkey]; rfl)

theorem removeDupAux_id_of_pairwise (l : List Subtitle) :
    ∀ seen, (∀ t ∈ l, seen.contains (subKey t) = false) →
    l.Pairwise (fun a b => subKey a ≠ subKey b) → removeDupAux seen l = l := by
  induction l with
  | nil => intro _ _ _; rfl
  | cons sub rest ih =>
    intro seen hseen hpw
    obtain ⟨hhead, htail⟩ := List.pairwise_cons.mp hpw
    have hc : seen.contains (sub.lang, sub.series_info) = false :=
      hseen sub (List.mem_cons_self _ _)
    rw [removeDupAux, if_neg (by rw [hc]; exact Bool.false_ne_true)]
    refine congrArg _ (ih _ (fun t ht => ?_) htail)
    simp only [List.contains_cons, Bool.or_eq_false_iff, beq_eq_false_iff_ne, ne_eq]
    exact ⟨fun he => hhead t ht (by rw [he]; rfl), hseen t (List.mem_cons_of_mem _ ht)⟩

/-- C5: for every ordered sequence of Subtitle Entries the deduplicator
keeps an entry iff no earlier entry of the sequence carries the same
`(language, episode_identifier)` key (first-seen wins); consequently no
two surviving entries share a key; concretely, of `1_English.srt` and
`2_English.srt` only the first-discovered survives. -/
theorem dedup_first_seen_wins :
    (∀ subs : List Subtitle, removeDuplicateLanguages subs = dedupFirstSeen subs) ∧
    (∀ subs : List Subtitle,
      (removeDuplicateLanguages subs).Pairwise fun a b => subKey a ≠ subKey b) ∧
    removeDuplicateLanguages
        [{ path := "1_English.srt", lang := .eng, series_info := none },
         { path := "2_English.srt", lang := .eng, series_info := none }] =
      [{ path := "1_English.srt", lang := .eng, series_info := none }] :=
  ⟨fun subs => removeDupAux_eq_dedupFirstSeenAux subs [],
   fun subs => removeDupAux_pairwise subs [],
   rfl⟩

/-- C9: the subtitle deduplicator is idempotent — applied to its own
output it returns that output unchanged. -/
theorem dedup_idempotent (subs : List Subtitle) :
    removeDuplicateLanguages (removeDuplicateLanguages subs) =
      removeDuplicateLanguages subs :=
  removeDupAux_id_of_pairwise _ [] (fun _ _ => rfl) (removeDupAux_pairwise subs [])

/-! ## Pairing lemmas -/

theorem mem_createSymlinks (videos : List Video) (subs : List Subtitle)
    (v : Video) (s : Subtitle) (n : String) :
    (v, s, n) ∈ createSymlinks videos subs ↔
      v ∈ videos ∧ s ∈ subs ∧ v.series_info = s.series_info ∧
        n = linkFileName v s := by
  simp only [createSymlinks, List.mem_map, List.mem_filter, List.mem_flatMap,
    beq_iff_eq, Prod.exists]
  constructor
  · rintro ⟨a, b, ⟨⟨v', hv', s', hs', heq1⟩, hser⟩, heq2⟩
    injection heq1 with h1 h2
    subst h1; subst h2
    injection heq2 with h3 h4
    injection h4 with h5 h6
    subst h3; subst h5; subst h6
    exact ⟨hv', hs', hser, rfl⟩
  · rintro ⟨hv, hs, hser, rfl⟩
    exact ⟨v, s, ⟨⟨v, hv, s, hs, rfl⟩, hser⟩, rfl⟩

/-- C3: a pairing is emitted for a video and a surviving subtitle iff
their episode identifiers are equal, two absent identifiers also counting
as equal; concretely, a video carrying S01E02 pairs with the S01E02
subtitle and not with the S01E03 one. -/
theorem pairing_iff_same_episode :
    (∀ (videos : List Video) (subs : List Subtitle) (v : Video) (s : Subtitle),
      (∃ n, (v, s, n) ∈ createSymlinks videos subs) ↔
        v ∈ videos ∧ s ∈ subs ∧ v.series_info = s.series_info) ∧
    createSymlinks [{ path := "Show S01E02.mkv", series_info := some ⟨1, 2⟩ }]
        [{ path := "Show S01E02.srt", lang := .eng, series_info := some ⟨1, 2⟩ },
         { path := "Show S01E03.srt", lang := .eng, series_info := some ⟨1, 3⟩ }] =
      [({ path := "Show S01E02.mkv", series_info := some ⟨1, 2⟩ },
        { path := "Show S01E02.srt", lang := .eng, series_info := some ⟨1, 2⟩ },
        "Show S01E02.en.default.srt")] := by
  constructor
  · intro videos subs v s
    constructor
    · rintro ⟨n, hn⟩
      have h := (mem_createSymlinks videos subs v s n).mp hn
      exact ⟨h.1, h.2.1, h.2.2.1⟩
    · rintro ⟨hv, hs, hser⟩
      exact ⟨linkFileName v s,
        (mem_createSymlinks videos subs v s _).mpr ⟨hv, hs, hser, rfl⟩⟩
  · rfl

/-- Witness for C3 at a concrete input: the S01E02 video does pair with
the S01E02 subtitle. -/
theorem pairing_iff_same_episode_witness :
    ∃ n, ({ path := "Show S01E02.mkv", series_info := some ⟨1, 2⟩ },
          { path := "Show S01E02.srt", lang := .eng, series_info := some ⟨1, 2⟩ },
          n) ∈
      createSymlinks [{ path := "Show S01E02.mkv", series_info := some ⟨1, 2⟩ }]
        [{ path := "Show S01E02.srt", lang := .eng, series_info := some ⟨1, 2⟩ }] :=
  (pairing_iff_same_episode.1 _ _ _ _).mpr
    ⟨List.mem_singleton.mpr rfl, List.mem_singleton.mpr rfl, rfl⟩

/-- C4: every emitted link file name is
`{video stem}.{preferred language tag}[.default].{subtitle extension}`,
the preferred tag being the 2-letter 639-1 code when it exists and the
3-letter 639-3 code otherwise, and `.default` present iff the language is
the designated default (English); `Movie.mkv` with `English.srt` yields
`Movie.en.default.srt`. -/
theorem link_name_format :
    (∀ (videos : List Video) (subs : List Subtitle) (v : Video) (s : Subtitle)
      (n : String), (v, s, n) ∈ createSymlinks videos subs →
      n = (fileStem v.path).getD "" ++ "." ++
          (s.lang.to_639_1.getD s.lang.to_639_3) ++
          (if s.lang = Language.eng then "." ++ jellyfinFlagDefault else "") ++
          "." ++ (extension s.path).getD "") ∧
    createSymlinks [{ path := "Movie.mkv", series_info := none }]
        [{ path := "English.srt", lang := .eng, series_info := none }] =
      [({ path := "Movie.mkv", series_info := none },
        { path := "English.srt", lang := .eng, series_info := none },
        "Movie.en.default.srt")] := by
  constructor
  · intro videos subs v s n hmem
    have hn := ((mem_createSymlinks videos subs v s n).mp hmem).2.2.2
    subst hn
    simp only [linkFileName]
    by_cases he : s.lang = Language.eng
    · rw [if_pos he, if_pos he]
      simp [String.append_assoc]
    · rw [if_neg he, if_neg he]
      simp [String.append_assoc]
  · rfl

/-- Witness for C4 at a concrete input: the emitted name for the
`Movie.mkv`/`English.srt` pair has the specified format. -/
theorem link_name_format_witness :
    "Movie.en.default.srt" =
      (fileStem "Movie.mkv").getD "" ++ "." ++
        ((Language.eng).to_639_1.getD (Language.eng).to_639_3) ++
        (if Language.eng = Language.eng then "." ++ jellyfinFlagDefault else "") ++
        "." ++ (extension "English.srt").getD "" :=
  link_name_format.1 [{ path := "Movie.mkv", series_info := none }]
    [{ path := "English.srt", lang := .eng, series_info := none }]
    { path := "Movie.mkv", series_info := none }
    { path := "English.srt", lang := .eng, series_info := none }
    "Movie.en.default.srt" (by rw [link_name_format.2]; exact List.mem_singleton.mpr rfl)

/-- C10: the `.default` marker is hard-wired to English: an emitted link
name carries the `.default` segment exactly when the subtitle's language
is English (`jellyfin_flags::DEFAULT` being the literal `default`), and
never for any other language. -/
theorem default_flag_iff_english :
    jellyfinFlagDefault = "default" ∧
    (∀ (videos : List Video) (subs : List Subtitle) (v : Video) (s : Subtitle)
      (n : String), (v, s, n) ∈ createSymlinks videos subs →
      (s.lang = Language.eng →
        n = (fileStem v.path).getD "" ++ "." ++ "en" ++ "." ++ "default" ++ "." ++
            (extension s.path).getD "") ∧
      (s.lang ≠ Language.eng →
        n = (fileStem v.path).getD "" ++ "." ++
            (s.lang.to_639_1.getD s.lang.to_639_3) ++ "." ++
            (extension s.path).getD "")) := by
  refine ⟨rfl, ?_⟩
  intro videos subs v s n hmem
  have hn := ((mem_createSymlinks videos subs v s n).mp hmem).2.2.2
  subst hn
  constructor
  · intro he
    simp only [linkFileName, if_pos he, he]
    simp [Language.to_639_1, jellyfinFlagDefault]
  · intro he
    simp only [linkFileName, if_neg he]

/-- Witness for C10 at concrete inputs: the English subtitle's link name
carries `.default`; a French subtitle's link name does not. -/
theorem default_flag_iff_english_witness :
    ("Movie.en.default.srt" =
      (fileStem "Movie.mkv").getD "" ++ "." ++ "en" ++ "." ++ "default" ++ "." ++
        (extension "English.srt").getD "") ∧
    ("Movie.fr.srt" =
      (fileStem "Movie.mkv").getD "" ++ "." ++
        ((Language.fra).to_639_1.getD (Language.fra).to_639_3) ++ "." ++
        (extension "French.srt").getD "") := by
  constructor
  · exact (default_flag_iff_english.2 [{ path := "Movie.mkv", series_info := none }]
      [{ path := "English.srt", lang := .eng, series_info := none }]
      { path := "Movie.mkv", series_info := none }
      { path := "English.srt", lang := .eng, series_info := none }
      "Movie.en.default.srt" (List.mem_singleton.mpr rfl)).1 rfl
  · exact (default_flag_iff_english.2 [{ path := "Movie.mkv", series_info := none }]
      [{ path := "French.srt", lang := .fra, series_info := none }]
      { path := "Movie.mkv", series_info := none }
      { path := "French.srt", lang := .fra, series_info := none }
      "Movie.fr.srt" (List.mem_singleton.mpr rfl)).2 (by simp)

/-! ## Title-prefix lemmas -/

theorem stripQualitySuffixList_isPrefixOf (cs : List Char) :
    (stripQualitySuffixList cs).isPrefixOf cs = true := by
  induction cs with
  | nil => rfl
  | cons c rest ih =>
    simp only [stripQualitySuffixList]
    by_cases h : qualitySuffixHere (c :: rest) = true
    · rw [if_pos h]; rfl
    · rw [if_neg h]
      simp [List.isPrefixOf, ih]

/-- C1 refuted as stated: these two video files pass the consistency
validator, yet their quality-stripped stems are different strings — the
code checks a prefix relation, not exact equality of stripped stems. -/
theorem exact_prefix_match_counterexample :
    differentVersionsSameMedia ["Show - 720p.mkv", "Show Extended - 1080p.mkv"] = true ∧
    fileStem "Show - 720p.mkv" = some "Show - 720p" ∧
    fileStem "Show Extended - 1080p.mkv" = some "Show Extended - 1080p" ∧
    stripQualitySuffix "Show - 720p" = "Show" ∧
    stripQualitySuffix "Show Extended - 1080p" = "Show Extended" ∧
    stripQualitySuffix "Show - 720p" ≠ stripQualitySuffix "Show Extended - 1080p" := by
  refine ⟨rfl, rfl, rfl, rfl, rfl, ?_⟩
  decide

/-- C1 (amended): after the Media Consistency Validator succeeds, every
entry's filename stem starts with — has as a case-sensitive prefix — the
quality-stripped stem of the first entry; the stripped stems themselves
need not be equal across entries. -/
theorem validated_titles_share_stem (first : String) (rest : List String)
    (h : differentVersionsSameMedia (first :: rest) = true) :
    ∃ fs, fileStem first = some fs ∧
      ∀ f ∈ first :: rest, ∃ s, fileStem f = some s ∧
        (stripQualitySuffix fs).data.isPrefixOf s.data = true := by
  cases hfs : fileStem first with
  | none =>
    simp only [differentVersionsSameMedia, hfs] at h
    exact absurd h (by simp)
  | some fs =>
    simp only [differentVersionsSameMedia, hfs] at h
    refine ⟨fs, rfl, ?_⟩
    intro f hf
    rcases List.mem_cons.mp hf with rfl | hmem
    · exact ⟨fs, hfs, by
        simpa [stripQualitySuffix] using stripQualitySuffixList_isPrefixOf fs.data⟩
    · have hall := List.all_eq_true.mp h f hmem
      cases hfs2 : fileStem f with
      | none => rw [hfs2] at hall; simp at hall
      | some s =>
        rw [hfs2] at hall
        exact ⟨s, rfl, by simpa [stripQualitySuffix] using hall⟩

/-- Witness for C1 (amended) at a concrete input. -/
theorem validated_titles_share_stem_witness :
    ∃ fs, fileStem "Show - 720p.mkv" = some fs ∧
      ∀ f ∈ ["Show - 720p.mkv", "Show - 1080p.mkv"], ∃ s, fileStem f = some s ∧
        (stripQualitySuffix fs).data.isPrefixOf s.data = true :=
  validated_titles_share_stem "Show - 720p.mkv" ["Show - 1080p.mkv"] rfl

/-- C8: when `stripQualitySuffix` removes nothing from the first entry's
stem, the validator does not fail outright — the whole first stem becomes
the title prefix, and validation succeeds iff every other entry's stem
starts with that entire first stem. -/
theorem no_suffix_whole_stem_fallback (first : String) (rest : List String)
    (fs : String) (hfs : fileStem first = some fs)
    (hstrip : stripQualitySuffix fs = fs) :
    differentVersionsSameMedia (first :: rest) = true ↔
      ∀ f ∈ rest, ∃ s, fileStem f = some s ∧ fs.data.isPrefixOf s.data = true := by
  have hl : stripQualitySuffixList fs.data = fs.data := congrArg String.data hstrip
  simp only [differentVersionsSameMedia, hfs, hl]
  rw [List.all_eq_true]
  constructor
  · intro h f hf
    have hall := h f hf
    cases hx : fileStem f with
    | none => rw [hx] at hall; simp at hall
    | some s => rw [hx] at hall; exact ⟨s, rfl, hall⟩
  · intro h f hf
    obtain ⟨s, hs, hpre⟩ := h f hf
    rw [hs]
    exact hpre

/-- Witness for C8 at a concrete input: `Movie` strips to itself and the
other stem starts with it, so the validator succeeds. -/
theorem no_suffix_whole_stem_fallback_witness :
    differentVersionsSameMedia ["Movie.mkv", "Movie Extended.mkv"] = true :=
  (no_suffix_whole_stem_fallback "Movie.mkv" ["Movie Extended.mkv"] "Movie" rfl rfl).mpr
    (by
      intro f hf
      rcases List.mem_singleton.mp hf with rfl
      exact ⟨"Movie Extended", rfl, rfl⟩)

/-! ## Series-pattern shape lemmas -/

theorem seriesAt_shape (l : List Char) (h : seriesAt l = true) :
    ∃ s d1 d2 e d3 d4 t, l = s :: d1 :: d2 :: e :: d3 :: d4 :: t ∧
      (s = 'S' ∨ s = 's') ∧ isDig d1 = true ∧ isDig d2 = true ∧
      (e = 'E' ∨ e = 'e') ∧ isDig d3 = true ∧ isDig d4 = true := by
  unfold seriesAt at h
  split at h
  · rename_i s d1 d2 e d3 d4 t
    simp only [Bool.and_eq_true, Bool.or_eq_true, decide_eq_true_eq] at h
    exact ⟨s, d1, d2, e, d3, d4, t, rfl,
      h.1.1.1.1.1, h.1.1.1.1.2, h.1.1.1.2, h.1.1.2, h.1.2, h.2⟩
  · exact absurd h (by simp)

theorem findSeriesInfoMatch_shape (cs m : List Char)
    (h : findSeriesInfoMatch cs = some m) :
    ∃ s d1 d2 e d3 d4, m = [s, d1, d2, e, d3, d4] ∧
      (s = 'S' ∨ s = 's') ∧ isDig d1 = true ∧ isDig d2 = true ∧
      (e = 'E' ∨ e = 'e') ∧ isDig d3 = true ∧ isDig d4 = true := by
  induction cs with
  | nil => simp [findSeriesInfoMatch] at h
  | cons c rest ih =>
    simp only [findSeriesInfoMatch] at h
    by_cases hs : seriesAt (c :: rest) = true
    · rw [if_pos hs] at h
      obtain ⟨s, d1, d2, e, d3, d4, t, heq, hprops⟩ := seriesAt_shape _ hs
      rw [heq] at h
      simp only [List.take] at h
      injection h with h2
      exact ⟨s, d1, d2, e, d3, d4, h2.symm, hprops⟩
    · rw [if_neg hs] at h
      exact ih h

theorem parseNonZeroU8_none_of_zero (a b : Char) (ha : isDig a = true)
    (hb : isDig b = true) (hz : digitsVal [a, b] = 0) :
    parseNonZeroU8 [a, b] = none := by
  have hle : digitsVal [a, b] ≤ 255 := by rw [hz]; omega
  unfold parseNonZeroU8 parseU8
  rw [if_neg (by simp), if_neg (by simp [ha, hb]), if_pos hle, hz]

theorem fromStr_error_of_zero (s d1 d2 e d3 d4 : Char)
    (hS : s = 'S' ∨ s = 's') (h1 : isDig d1 = true) (h2 : isDig d2 = true)
    (hE : e = 'E' ∨ e = 'e') (h3 : isDig d3 = true) (h4 : isDig d4 = true)
    (hz : digitsVal [d1, d2] = 0 ∨ digitsVal [d3, d4] = 0) :
    ∃ err, SeriesInfo.fromStr (String.mk [s, d1, d2, e, d3, d4]) = .error err := by
  have hsa : seriesAt [s, d1, d2, e, d3, d4] = true := by
    rcases hS with rfl | rfl <;> rcases hE with rfl | rfl <;>
      simp [seriesAt, h1, h2, h3, h4]
  have hcond : (String.mk [s, d1, d2, e, d3, d4]).length = 6 ∧
      (findSeriesInfoMatch (String.mk [s, d1, d2, e, d3, d4]).data).isSome = true := by
    refine ⟨rfl, ?_⟩
    show (findSeriesInfoMatch [s, d1, d2, e, d3, d4]).isSome = true
    rw [findSeriesInfoMatch, if_pos hsa]
    rfl
  unfold SeriesInfo.fromStr
  rw [if_pos hcond]
  have hd12 : (((String.mk [s, d1, d2, e, d3, d4]).data.drop 1).take 2) = [d1, d2] := rfl
  have hd34 : (((String.mk [s, d1, d2, e, d3, d4]).data.drop 4).take 2) = [d3, d4] := rfl
  rw [hd12, hd34]
  rcases hz with hz1 | hz2
  · rw [parseNonZeroU8_none_of_zero d1 d2 h1 h2 hz1]
    exact ⟨_, rfl⟩
  · cases hp : parseNonZeroU8 [d1, d2] with
    | none => exact ⟨_, rfl⟩
    | some k =>
      rw [parseNonZeroU8_none_of_zero d3 d4 h3 h4 hz2]
      exact ⟨_, rfl⟩

/-- C2 refuted as stated: on `S00E01.mkv` (zero season pair) the episode
extraction does not produce an entry with an absent identifier — it fails
the whole file with a parse error; likewise `S01E00.mkv` for the zero
episode pair. -/
theorem zero_episode_counterexample :
    Video.fromPath "S00E01.mkv" ≠
      Except.ok { path := "S00E01.mkv", series_info := none } ∧
    Video.fromPath "S00E01.mkv" = Except.error "couldn't parse season" ∧
    Video.fromPath "S01E00.mkv" = Except.error "couldn't parse episode" := by
  refine ⟨?_, rfl, rfl⟩
  rw [show Video.fromPath "S00E01.mkv" = Except.error "couldn't parse season" from rfl]
  intro h
  exact Except.noConfusion h

/-- C2 (amended): when the first `S##E##` occurrence in a path has a zero
digit-pair, the identifier parse fails and `Video::from_path` returns an
error, so the file is skipped by discovery (a per-file failure) rather
than being kept with an absent identifier. -/
theorem zero_episode_is_per_file_error :
    (∀ (path : String) (m : List Char),
      findSeriesInfoMatch path.data = some m →
      digitsVal ((m.drop 1).take 2) = 0 ∨ digitsVal ((m.drop 4).take 2) = 0 →
      ∃ err, Video.fromPath path = .error err) ∧
    (∀ (ps1 : List String) (p : String) (ps2 : List String) (err : String),
      Video.fromPath p = .error err →
      discoverVideos (ps1 ++ p :: ps2) = discoverVideos (ps1 ++ ps2)) := by
  constructor
  · intro path m hfind hz
    obtain ⟨s, d1, d2, e, d3, d4, hm, hS, h1, h2, hE, h3, h4⟩ :=
      findSeriesInfoMatch_shape _ _ hfind
    subst hm
    have hz' : digitsVal [d1, d2] = 0 ∨ digitsVal [d3, d4] = 0 := by
      simpa using hz
    obtain ⟨err, herr⟩ := fromStr_error_of_zero s d1 d2 e d3 d4 hS h1 h2 hE h3 h4 hz'
    refine ⟨err, ?_⟩
    simp only [Video.fromPath, hfind, herr]
  · intro ps1 p ps2 err herr
    unfold discoverVideos
    rw [List.filter_append, List.filter_append]
    by_cases hp : isVideoPath p = true
    · simp [hp, List.filterMap_append, List.filterMap_cons, herr, Except.toOption]
    · simp [hp, List.filterMap_append]

/-- Witness for C2 (amended) at a concrete input: `Show S00E01.mkv` fails
with an error and is skipped by video discovery. -/
theorem zero_episode_is_per_file_error_witness :
    (∃ err, Video.fromPath "Show S00E01.mkv" = .error err) ∧
    discoverVideos (["A.mkv"] ++ "Show S00E01.mkv" :: ["B.mkv"]) =
      discoverVideos (["A.mkv"] ++ ["B.mkv"]) :=
  ⟨zero_episode_is_per_file_error.1 "Show S00E01.mkv" "S00E01".data rfl (Or.inl rfl),
   zero_episode_is_per_file_error.2 ["A.mkv"] "Show S00E01.mkv" ["B.mkv"]
     "couldn't parse season" rfl⟩

/-- C6: language resolution is an exact lookup against the standard
language-name/code table, failing (with the unknown-language error
carrying the offending token) exactly when no entry matches; the failure
is local to the file — the offending subtitle is dropped from discovery
while every remaining file is still processed. -/
theorem unknown_language_local_failure :
    (∀ token : String, Language.fromName token = none ↔
      ∀ p ∈ languageTable, p.1 ≠ token) ∧
    (∀ path file_name : String, fileStem path = some file_name →
      Language.fromName (stripNumericPrefix file_name) = none →
      Subtitle.new path = .error
        ("couldn't find language " ++ stripNumericPrefix file_name)) ∧
    (∀ (ps1 : List String) (p : String) (ps2 : List String) (err : String),
      Subtitle.new p = .error err →
      discoverSubtitles (ps1 ++ p :: ps2) = discoverSubtitles (ps1 ++ ps2)) := by
  refine ⟨?_, ?_, ?_⟩
  · intro token
    simp only [Language.fromName, Option.map_eq_none', List.find?_eq_none,
      beq_iff_eq, ne_eq]
  · intro path file_name hstem hnone
    simp only [Subtitle.new, hstem, hnone]
  · intro ps1 p ps2 err herr
    unfold discoverSubtitles
    rw [List.filter_append, List.filter_append]
    by_cases hp : isSubtitlePath p = true
    · simp [hp, List.filterMap_append, List.filterMap_cons, herr, Except.toOption]
    · simp [hp, List.filterMap_append]

/-- Witness for C6 at concrete inputs: `Subtitles` resolves to no
language, the file fails alone and discovery continues with the
neighbouring files. -/
theorem unknown_language_local_failure_witness :
    (Language.fromName "Klingon" = none ↔ ∀ p ∈ languageTable, p.1 ≠ "Klingon") ∧
    Subtitle.new "Subtitles.srt" = .error "couldn't find language Subtitles" ∧
    discoverSubtitles (["1_English.srt"] ++ "Subtitles.srt" :: ["2_French.srt"]) =
      discoverSubtitles (["1_English.srt"] ++ ["2_French.srt"]) :=
  ⟨unknown_language_local_failure.1 "Klingon",
   unknown_language_local_failure.2.1 "Subtitles.srt" "Subtitles" rfl rfl,
   unknown_language_local_failure.2.2 ["1_English.srt"] "Subtitles.srt"
     ["2_French.srt"] "couldn't find language Subtitles" rfl⟩

/-- C7: the three directory-fatal conditions make `process` return the
corresponding error, and an erroring `process` emits no link
instructions: zero videos yields `NoVideosFound`; with two or more
videos, mixing series and movies yields `MixedSeriesAndMovies` and a
failed same-media check yields `InconsistentTitles`; no `.ok` link list
coexists with any error. -/
theorem fatal_errors_abort_before_linking :
    (∀ subs : List Subtitle, process [] subs = .error .noVideosFound) ∧
    (∀ (videos : List Video) (subs : List Subtitle), 2 ≤ videos.length →
      (noSeries videos || allASeries videos) = false →
      process videos subs = .error .mixedSeriesAndMovies) ∧
    (∀ (videos : List Video) (subs : List Subtitle), 2 ≤ videos.length →
      (noSeries videos || allASeries videos) = true →
      differentVersionsSameMedia (videos.map Video.path) = false →
      process videos subs = .error .inconsistentTitles) ∧
    (∀ (videos : List Video) (subs : List Subtitle) (err : ProcessError)
      (links : List (Video × Subtitle × String)),
      process videos subs = .error err → process videos subs ≠ .ok links) := by
  refine ⟨fun _ => rfl, ?_, ?_, ?_⟩
  · intro videos subs hlen hmix
    cases videos with
    | nil => simp at hlen
    | cons v1 tl =>
      cases tl with
      | nil => simp at hlen
      | cons v2 rest => simp [process, hmix]
  · intro videos subs hlen hmix hdvsm
    cases videos with
    | nil => simp at hlen
    | cons v1 tl =>
      cases tl with
      | nil => simp at hlen
      | cons v2 rest =>
        simp only [List.map_cons] at hdvsm
        simp [process, hmix, hdvsm]
  · intro videos subs err links herr hok
    rw [herr] at hok
    exact Except.noConfusion hok

/-- Witness for C7 at concrete inputs: an empty directory, a mixed
series/movie pair, and two unrelated movie files each abort with the
matching error before linking. -/
theorem fatal_errors_abort_before_linking_witness :
    process ([] : List Video) ([] : List Subtitle) = .error .noVideosFound ∧
    process [{ path := "A S01E01.mkv", series_info := some ⟨1, 1⟩ },
             { path := "B.mkv", series_info := none }] [] =
      .error .mixedSeriesAndMovies ∧
    process [{ path := "A.mkv", series_info := none },
             { path := "B.mkv", series_info := none }] [] =
      .error .inconsistentTitles ∧
    process ([] : List Video) ([] : List Subtitle) ≠ .ok [] :=
  ⟨fatal_errors_abort_before_linking.1 [],
   fatal_errors_abort_before_linking.2.1 _ [] (by simp) (by decide),
   fatal_errors_abort_before_linking.2.2.1 _ [] (by simp) (by decide) (by decide),
   fatal_errors_abort_before_linking.2.2.2 [] [] .noVideosFound []
     (fatal_errors_abort_before_linking.1 [])⟩

end Subfix
